import Mathlib

/-!
Shallow embedding of the herosync Inventory Reconciliation & Sync-State
Engine (Go sources under internal/media, internal/gopro, cmd/cleanup.go),
together with proofs settling the frozen claims about it.

Modelling conventions:
* Go time.Time values are modelled as Int (seconds since the Unix epoch);
  time.Time.Before is integer strict order.
* Go int64 sizes are modelled as Int.
* Go maps (filename to file info) are modelled as association lists;
  the list order stands for the unspecified map iteration order, so
  properties that must hold for every iteration order are quantified over
  permutations of the association list.
* Go sort.Slice and slices.SortFunc are modelled with a stable insertion
  sort on the non-strict comparator derived from the Go less function; for
  slices shorter than twelve elements the Go implementation is exactly this
  insertion sort, and elsewhere it guarantees the same sortedness
  postcondition.
* The derived human-readable DisplayInfo string of a record is not
  modelled; no claim depends on it.
-/

namespace Herosync

/-- Synchronization status of a file (internal/media/inventory.go, type Status). -/
inductive Status
  | OnlyRemote
  | OnlyLocal
  | InSync
  | OutOfSync
  | Processed
  | StatError
deriving DecidableEq, Repr

/-- Size and modification time of a local file, the part of os.FileInfo the code reads. -/
structure LocalInfo where
  size : Int
  modTime : Int
deriving DecidableEq, Repr

/-- A Go map from filename to file info, as an association list. -/
abbrev FileMap := List (String × LocalInfo)

/-- One entry of the remote media listing (internal/gopro/models.go, MediaListItem). -/
structure MediaListItem where
  filename : String
  createdAt : Int
  size : Int
deriving DecidableEq, Repr

/-- One directory group of the remote media listing (internal/gopro/models.go, MediaFiles). -/
structure MediaFiles where
  directory : String
  items : List MediaListItem
deriving DecidableEq, Repr

/-- The remote media listing (internal/gopro/models.go, MediaList). -/
structure MediaList where
  id : String
  media : List MediaFiles
deriving DecidableEq, Repr

/-- A media file record of the inventory (internal/media/inventory.go, type File). -/
structure File where
  directory : String
  filename : String
  createdAt : Int
  size : Int
  status : Status
deriving DecidableEq, Repr

/-- First-match lookup in an association list; Go map indexing. -/
def lookupKey (m : FileMap) (k : String) : Option LocalInfo :=
  match m with
  | [] => none
  | (k', v) :: rest => if k' = k then some v else lookupKey rest k

/-- Removal of a key from an association list; Go map delete. -/
def eraseKey (m : FileMap) (k : String) : FileMap :=
  m.filter (fun p => decide (p.1 ≠ k))

/-- Body of the processRemoteFiles loop for one remote item
(internal/media/inventory.go lines 144-168): look the filename up in the
incoming map, derive the status, consume the matched entry. -/
def processItem (dir : String) (it : MediaListItem) (incoming : FileMap) :
    File × FileMap :=
  match lookupKey incoming it.filename with
  | some info =>
      ({ directory := dir, filename := it.filename, createdAt := it.createdAt,
         size := it.size,
         status := if info.size = it.size then Status.InSync else Status.OutOfSync },
       eraseKey incoming it.filename)
  | none =>
      ({ directory := dir, filename := it.filename, createdAt := it.createdAt,
         size := it.size, status := Status.OnlyRemote },
       incoming)

/-- Inner loop of processRemoteFiles over the items of one directory group. -/
def processItems (dir : String) (items : List MediaListItem) (incoming : FileMap) :
    List File × FileMap :=
  match items with
  | [] => ([], incoming)
  | it :: rest =>
      let step := processItem dir it incoming
      let next := processItems dir rest step.2
      (step.1 :: next.1, next.2)

/-- Outer loop of processRemoteFiles over the directory groups. -/
def processGroups (groups : List MediaFiles) (incoming : FileMap) :
    List File × FileMap :=
  match groups with
  | [] => ([], incoming)
  | g :: rest =>
      let step := processItems g.directory g.items incoming
      let next := processGroups rest step.2
      (step.1 ++ next.1, next.2)

/-- processRemoteFiles (internal/media/inventory.go): adds one record per remote
item and returns the incoming map with the matched filenames consumed. -/
def processRemoteFiles (ml : MediaList) (incoming : FileMap) :
    List File × FileMap :=
  processGroups ml.media incoming

/-- processIncomingFiles (internal/media/inventory.go): every filename left in
the incoming map becomes an OnlyLocal record with createdAt from mtime. -/
def processIncomingFiles (incomingFiles : FileMap) (incomingDir : String) :
    List File :=
  incomingFiles.map (fun p =>
    { directory := incomingDir, filename := p.1, createdAt := p.2.modTime,
      size := p.2.size, status := Status.OnlyLocal })

/-- processOutgoingFiles (internal/media/inventory.go): every file of the
outgoing map becomes a Processed record with createdAt from mtime. -/
def processOutgoingFiles (outgoingFiles : FileMap) (outgoingDir : String) :
    List File :=
  outgoingFiles.map (fun p =>
    { directory := outgoingDir, filename := p.1, createdAt := p.2.modTime,
      size := p.2.size, status := Status.Processed })

/-- Insertion step of the stable sort: place the element before the first
position whose element is not below it. -/
def insertLE {α : Type} (le : α → α → Bool) (a : α) : List α → List α
  | [] => [a]
  | b :: rest => if le a b then a :: b :: rest else b :: insertLE le a rest

/-- Stable insertion sort; the model of Go sort.Slice and slices.SortFunc. -/
def sortLE {α : Type} (le : α → α → Bool) : List α → List α
  | [] => []
  | a :: rest => insertLE le a (sortLE le rest)

/-- The comparator of the final sort.Slice call in NewInventory: the Go less
function is CreatedAt.Before, so the sortedness relation is non-strict
createdAt order. -/
def createdLE (a b : File) : Bool := decide (a.createdAt ≤ b.createdAt)

/-- NewInventory (internal/media/inventory.go lines 83-109), after the three
listings have been obtained: remote records, then leftover incoming records,
then outgoing records, sorted by createdAt. -/
def newInventory (ml : MediaList) (incoming outgoing : FileMap)
    (incomingDir outgoingDir : String) : List File :=
  let remote := processRemoteFiles ml incoming
  sortLE createdLE
    (remote.1 ++ processIncomingFiles remote.2 incomingDir ++
      processOutgoingFiles outgoing outgoingDir)

/-- The remote items of a media list, flattened with their directory names. -/
def remoteItems (ml : MediaList) : List (String × MediaListItem) :=
  ml.media.flatMap (fun g => g.items.map (fun it => (g.directory, it)))

/-- The filenames reported by the remote listing. -/
def remoteNames (ml : MediaList) : List String :=
  (remoteItems ml).map (fun p => p.2.filename)

/-- Status assignment table of the spec (section 3): the status a remote item
receives given the incoming map. Written from the spec's table, to be related
to the records processRemoteFiles builds. -/
def specRemoteStatus (incoming : FileMap) (it : MediaListItem) : Status :=
  match lookupKey incoming it.filename with
  | some info => if info.size = it.size then Status.InSync else Status.OutOfSync
  | none => Status.OnlyRemote

/-- Parsed GoPro filename (internal/gopro/filename.go, FilenameInfo).
Chapter and media id are Go ints holding small non-negative values. -/
structure FilenameInfo where
  quality : String
  chapter : Nat
  mediaID : Nat
  fileType : String
  isValid : Bool
  filename : String
deriving DecidableEq, Repr

/-- Numeric value of a decimal digit character. -/
def digitVal (c : Char) : Nat := c.toNat - '0'.toNat

/-- ParseFilename (internal/gopro/filename.go): match the fixed pattern
G, quality in \x7bX,H,L,M\x7d, two chapter digits, four media id digits, a dot,
and extension MP4, THM or LRV; on failure return the zero value with
isValid false, exactly as the Go regexp match does. -/
def ParseFilename (filename : String) : FilenameInfo :=
  match filename.data with
  | ['G', q, c1, c2, m1, m2, m3, m4, '.', e1, e2, e3] =>
      if (q == 'X' || q == 'H' || q == 'L' || q == 'M') &&
         (c1.isDigit && c2.isDigit && m1.isDigit && m2.isDigit &&
          m3.isDigit && m4.isDigit) &&
         (([e1, e2, e3] == ['M', 'P', '4']) || ([e1, e2, e3] == ['T', 'H', 'M']) ||
          ([e1, e2, e3] == ['L', 'R', 'V'])) then
        { quality := String.mk [q],
          chapter := digitVal c1 * 10 + digitVal c2,
          mediaID := ((digitVal m1 * 10 + digitVal m2) * 10 + digitVal m3) * 10 +
            digitVal m4,
          fileType := String.mk [e1, e2, e3],
          isValid := true,
          filename := filename }
      else
        { quality := "", chapter := 0, mediaID := 0, fileType := "",
          isValid := false, filename := filename }
  | _ =>
      { quality := "", chapter := 0, mediaID := 0, fileType := "",
        isValid := false, filename := filename }

/-- The record predicate of the FilterByMediaID loop: keep non-Processed
records whose filename parses as valid with the requested media id. -/
def mediaIDPred (mediaID : Nat) (f : File) : Bool :=
  decide (f.status ≠ Status.Processed) &&
    ((ParseFilename f.filename).isValid &&
      ((ParseFilename f.filename).mediaID == mediaID))

/-- The comparator of the slices.SortFunc call in FilterByMediaID: the Go cmp
function is the chapter difference, so the sortedness relation is non-strict
chapter order. -/
def chapterLE (a b : File) : Bool :=
  decide ((ParseFilename a.filename).chapter ≤ (ParseFilename b.filename).chapter)

/-- FilterByMediaID (internal/media/inventory.go lines 282-311): keep matching
records, sort them by chapter, and report an explicit error when nothing
matched. -/
def FilterByMediaID (files : List File) (mediaID : Nat) :
    Except String (List File) :=
  let chapters := files.filter (mediaIDPred mediaID)
  let sorted := sortLE chapterLE chapters
  if sorted.isEmpty then
    Except.error "no matching files found for Media ID"
  else
    Except.ok sorted

/-- Accumulating loop of MediaIDs (internal/media/inventory.go lines 333-351):
skip Processed records, take the parsed media id of every other record with no
validity check, and keep first occurrences. -/
def mediaIDsAux (files : List File) (acc : List Nat) : List Nat :=
  match files with
  | [] => acc
  | f :: rest =>
      if f.status = Status.Processed then
        mediaIDsAux rest acc
      else
        let id := (ParseFilename f.filename).mediaID
        if id ∈ acc then mediaIDsAux rest acc
        else mediaIDsAux rest (acc ++ [id])

/-- MediaIDs (internal/media/inventory.go): sorted list of the distinct media
id keys, including the zero id contributed by records whose filename does not
parse. -/
def MediaIDs (files : List File) : List Nat :=
  sortLE (fun a b => decide (a ≤ b)) (mediaIDsAux files [])

/-- shouldCleanup (cmd/cleanup.go lines 116-131): which copies of a file the
cleanup command selects for deletion, given the remote and local flags.
The Go parameter named local is called localFlag here (local is reserved). -/
def shouldCleanup (file : File) (remote localFlag : Bool) : Bool × Bool :=
  if file.status = Status.InSync then
    if !remote && !localFlag then (true, false)
    else if !remote && localFlag then (false, true)
    else (remote, localFlag)
  else
    (remote && !(decide (file.status = Status.OnlyLocal)),
     localFlag && !(decide (file.status = Status.OnlyRemote)))

/-- The outcome of listing one local directory, the part of the filesystem
behaviour the scanning code can observe: the directory is missing, the
directory exists but reading it fails, or it exists and yields entries. -/
inductive DirState
  | missing
  | unreadable
  | readable (entries : List (String × LocalInfo))
deriving DecidableEq, Repr

/-- scanLocalFiles (internal/media/inventory.go lines 112-140): os.ReadDir is
called on the directory and any error it returns, including the not-exist
error of a missing directory, is propagated; only on success is the map of
entries built. Entries are the regular files (the code skips others). -/
def scanLocalFiles (d : DirState) : Except String FileMap :=
  match d with
  | DirState.missing => Except.error "reading directory"
  | DirState.unreadable => Except.error "reading directory"
  | DirState.readable entries => Except.ok entries

/-- getLocalFiles (internal/media/media.go lines 292-321): filepath.WalkDir
reports a missing root as a not-exist error which the walk function swallows,
yielding an empty map; any other error is propagated. -/
def getLocalFiles (d : DirState) : Except String FileMap :=
  match d with
  | DirState.missing => Except.ok []
  | DirState.unreadable => Except.error "walking local directory"
  | DirState.readable entries => Except.ok entries

/-- NewInventory including its directory scans (internal/media/inventory.go
lines 83-109): a failed scan aborts the build with the error and no
inventory is produced. -/
def newInventoryScanned (ml : MediaList) (incomingState outgoingState : DirState)
    (incomingDir outgoingDir : String) : Except String (List File) :=
  match scanLocalFiles incomingState with
  | Except.error e => Except.error e
  | Except.ok incoming =>
      match scanLocalFiles outgoingState with
      | Except.error e => Except.error e
      | Except.ok outgoing =>
          Except.ok (newInventory ml incoming outgoing incomingDir outgoingDir)

/-- adjustTimestamps for one item (internal/gopro/client.go lines 290-300):
shift the camera-local creation time by the reported timezone offset, in
minutes, to UTC; time is in seconds here, so one minute is 60. -/
def adjustItem (tzOffset : Int) (it : MediaListItem) : MediaListItem :=
  { it with createdAt := it.createdAt - tzOffset * 60 }

/-- adjustTimestamps (internal/gopro/client.go): apply the shift to every item
of every directory group of the media list. -/
def adjustTimestamps (ml : MediaList) (tzOffset : Int) : MediaList :=
  { ml with media := ml.media.map (fun g =>
      { g with items := g.items.map (adjustItem tzOffset) }) }

/-- A JSON value as the decoders case on it: an integral number (the camera
reports whole seconds and byte counts), a string, or anything else (null,
bool, array, object), which every decoder here rejects. -/
inductive Json
  | num (n : Int)
  | str (s : String)
  | other
deriving DecidableEq, Repr

/-- Digit run of strconv.ParseInt: consumes the whole remaining string and
fails on any non-digit character. -/
def parseDigitsAux (cs : List Char) (acc : Nat) : Option Nat :=
  match cs with
  | [] => some acc
  | c :: rest =>
      if c.isDigit then parseDigitsAux rest (acc * 10 + digitVal c) else none

/-- strconv.ParseInt base 10 on the whole string: optional sign followed by at
least one digit. (The int64 range check is not modelled; the values in play
are far below it.) -/
def parseIntGo (s : String) : Option Int :=
  match s.data with
  | [] => none
  | '+' :: rest =>
      if rest = [] then none else (parseDigitsAux rest 0).map Int.ofNat
  | '-' :: rest =>
      if rest = [] then none else (parseDigitsAux rest 0).map (fun n => -(n : Int))
  | cs => (parseDigitsAux cs 0).map Int.ofNat

/-- Timestamp.UnmarshalJSON (newer models revision, src/unnamed/part_006):
accept a JSON number directly, parse a JSON string with ParseInt, reject any
other type. -/
def timestampUnmarshalJSON (j : Json) : Except String Int :=
  match j with
  | Json.num n => Except.ok n
  | Json.str s =>
      match parseIntGo s with
      | some n => Except.ok n
      | none => Except.error "invalid syntax"
  | Json.other => Except.error "unexpected type for Timestamp"

/-- String64.UnmarshalJSON (newer models revision, src/unnamed/part_006):
same shape as the Timestamp decoder. -/
def string64UnmarshalJSON (j : Json) : Except String Int :=
  match j with
  | Json.num n => Except.ok n
  | Json.str s =>
      match parseIntGo s with
      | some n => Except.ok n
      | none => Except.error "invalid syntax"
  | Json.other => Except.error "unexpected type for String64"

/-- MediaListItem.UnmarshalJSON (internal/gopro/models.go lines 48-74): the
cre and s fields are unmarshalled into Go string fields, so a JSON number
payload makes json.Unmarshal itself fail; only JSON strings reach the
ParseInt calls. -/
def mediaListItemUnmarshalModels (name : String) (cre s : Json) :
    Except String MediaListItem :=
  match cre, s with
  | Json.str creStr, Json.str sStr =>
      match parseIntGo creStr with
      | none => Except.error "invalid creation timestamp"
      | some seconds =>
          match parseIntGo sStr with
          | none => Except.error "invalid size string"
          | some size =>
              Except.ok { filename := name, createdAt := seconds, size := size }
  | _, _ => Except.error "cannot unmarshal into field of type string"

/-- Media item decoding in the newer models revision (src/unnamed/part_006):
the item struct fields use the Timestamp and String64 decoders. -/
def mediaListItemUnmarshalFields (name : String) (cre s : Json) :
    Except String MediaListItem :=
  match timestampUnmarshalJSON cre with
  | Except.error e => Except.error e
  | Except.ok seconds =>
      match string64UnmarshalJSON s with
      | Except.error e => Except.error e
      | Except.ok size =>
          Except.ok { filename := name, createdAt := seconds, size := size }

/-- A JSON payload is numeric when it is a number or a string ParseInt
accepts; the claim's decoders succeed exactly on these. -/
def numericJson (j : Json) : Prop :=
  (∃ n, j = Json.num n) ∨ (∃ s, j = Json.str s ∧ (parseIntGo s).isSome = true)

/-- Number of distinct strings in a list, used to state the conservation
claim's count of distinct filenames. -/
def distinctCount (l : List String) : Nat := l.toFinset.card

/-- The remote processing loops flattened over (directory, item) pairs;
processGroups is proved equal to this below, and the structural lemmas are
stated about it. -/
def processFlat (l : List (String × MediaListItem)) (incoming : FileMap) :
    List File × FileMap :=
  match l with
  | [] => ([], incoming)
  | p :: rest =>
      let step := processItem p.1 p.2 incoming
      let next := processFlat rest step.2
      (step.1 :: next.1, next.2)

theorem lookupKey_eq_none_iff (m : FileMap) (k : String) :
    lookupKey m k = none ↔ k ∉ m.map Prod.fst := by
  induction m with
  | nil => simp [lookupKey]
  | cons p rest ih =>
      obtain ⟨k', v⟩ := p
      by_cases h : k' = k
      · subst h
        simp [lookupKey]
      · simp [lookupKey, h, ih, Ne.symm h]

theorem lookupKey_isSome_of_mem {m : FileMap} {p : String × LocalInfo}
    (h : p ∈ m) : (lookupKey m p.1).isSome = true := by
  induction m with
  | nil => cases h
  | cons q rest ih =>
      obtain ⟨k', v⟩ := q
      rcases List.mem_cons.mp h with h' | h'
      · subst h'
        simp [lookupKey]
      · by_cases hk : k' = p.1
        · simp [lookupKey, hk]
        · simp [lookupKey, hk, ih h']

theorem eraseKey_of_lookup_none {m : FileMap} {k : String}
    (h : lookupKey m k = none) : eraseKey m k = m := by
  have hmem := (lookupKey_eq_none_iff m k).mp h
  unfold eraseKey
  apply List.filter_eq_self.mpr
  intro p hp
  have : p.1 ≠ k := by
    intro hEq
    exact hmem (List.mem_map.mpr ⟨p, hp, hEq⟩)
  simp [this]

theorem lookupKey_cons (key : String) (v : LocalInfo) (rest : FileMap)
    (k : String) :
    lookupKey ((key, v) :: rest) k = if key = k then some v else lookupKey rest k :=
  rfl

theorem eraseKey_cons (key : String) (v : LocalInfo) (rest : FileMap)
    (k : String) :
    eraseKey ((key, v) :: rest) k =
      if key = k then eraseKey rest k else (key, v) :: eraseKey rest k := by
  unfold eraseKey
  rw [List.filter_cons]
  by_cases h : key = k <;> simp [h]

theorem lookupKey_eraseKey_ne (m : FileMap) {k k' : String} (h : k ≠ k') :
    lookupKey (eraseKey m k') k = lookupKey m k := by
  induction m with
  | nil => simp [eraseKey, lookupKey]
  | cons p rest ih =>
      obtain ⟨key, v⟩ := p
      rw [eraseKey_cons, lookupKey_cons]
      by_cases hk : key = k'
      · have hkk : key ≠ k := fun hEq => h (hEq ▸ hk)
        rw [if_pos hk, if_neg hkk]
        exact ih
      · rw [if_neg hk, lookupKey_cons]
        by_cases hkk : key = k
        · rw [if_pos hkk, if_pos hkk]
        · rw [if_neg hkk, if_neg hkk]
          exact ih

theorem processItem_snd (d : String) (it : MediaListItem) (m : FileMap) :
    (processItem d it m).2 = eraseKey m it.filename := by
  unfold processItem
  cases h : lookupKey m it.filename with
  | none => simp [eraseKey_of_lookup_none h]
  | some info => simp

theorem processItem_fst_eq (d : String) (it : MediaListItem) (m : FileMap) :
    (processItem d it m).1 =
      { directory := d, filename := it.filename, createdAt := it.createdAt,
        size := it.size, status := specRemoteStatus m it } := by
  unfold processItem specRemoteStatus
  cases h : lookupKey m it.filename with
  | none => simp [h]
  | some info => by_cases hs : info.size = it.size <;> simp [h, hs]

theorem processItem_fst_congr (d : String) (it : MediaListItem)
    {m m' : FileMap} (h : lookupKey m it.filename = lookupKey m' it.filename) :
    (processItem d it m).1 = (processItem d it m').1 := by
  rw [processItem_fst_eq, processItem_fst_eq]
  unfold specRemoteStatus
  rw [h]

theorem processFlat_snd (l : List (String × MediaListItem)) (incoming : FileMap) :
    (processFlat l incoming).2 =
      incoming.filter
        (fun e => decide (e.1 ∉ l.map (fun p => p.2.filename))) := by
  induction l generalizing incoming with
  | nil => simp [processFlat]
  | cons hd tl ih =>
      simp only [processFlat, processItem_snd, ih]
      unfold eraseKey
      rw [List.filter_filter]
      apply List.filter_congr
      intro e _
      by_cases h1 : e.1 = hd.2.filename
      · simp [h1]
      · simp [h1]

theorem processFlat_fst (l : List (String × MediaListItem)) (incoming : FileMap)
    (h : (l.map (fun p => p.2.filename)).Nodup) :
    (processFlat l incoming).1 =
      l.map (fun p => (processItem p.1 p.2 incoming).1) := by
  induction l generalizing incoming with
  | nil => simp [processFlat]
  | cons hd tl ih =>
      simp only [List.map_cons, List.nodup_cons] at h
      simp only [processFlat, processItem_snd, List.map_cons]
      congr 1
      rw [ih _ h.2]
      apply List.map_congr_left
      intro p hp
      apply processItem_fst_congr
      apply lookupKey_eraseKey_ne
      intro hEq
      exact h.1 (hEq ▸ List.mem_map.mpr ⟨p, hp, rfl⟩)

theorem processItems_eq_processFlat (dir : String) (items : List MediaListItem)
    (incoming : FileMap) :
    processItems dir items incoming =
      processFlat (items.map (fun it => (dir, it))) incoming := by
  induction items generalizing incoming with
  | nil => rfl
  | cons it rest ih => simp only [processItems, processFlat, List.map_cons, ih]

theorem processFlat_append (l₁ l₂ : List (String × MediaListItem))
    (incoming : FileMap) :
    processFlat (l₁ ++ l₂) incoming =
      ((processFlat l₁ incoming).1 ++
         (processFlat l₂ (processFlat l₁ incoming).2).1,
       (processFlat l₂ (processFlat l₁ incoming).2).2) := by
  induction l₁ generalizing incoming with
  | nil => simp [processFlat]
  | cons hd tl ih => simp [processFlat, ih]

theorem processRemoteFiles_eq_processFlat (ml : MediaList) (incoming : FileMap) :
    processRemoteFiles ml incoming = processFlat (remoteItems ml) incoming := by
  unfold processRemoteFiles remoteItems
  induction ml.media generalizing incoming with
  | nil => rfl
  | cons g rest ih =>
      simp only [processGroups, List.flatMap_cons, processFlat_append,
        processItems_eq_processFlat, ih]

theorem insertLE_perm {α : Type} (le : α → α → Bool) (a : α) (l : List α) :
    (insertLE le a l).Perm (a :: l) := by
  induction l with
  | nil => exact List.Perm.refl _
  | cons b rest ih =>
      unfold insertLE
      by_cases hab : le a b = true
      · rw [if_pos hab]
      · rw [if_neg hab]
        exact (ih.cons b).trans (List.Perm.swap a b rest)

theorem sortLE_perm {α : Type} (le : α → α → Bool) (l : List α) :
    (sortLE le l).Perm l := by
  induction l with
  | nil => exact List.Perm.refl _
  | cons a rest ih => exact (insertLE_perm le a (sortLE le rest)).trans (ih.cons a)

theorem mem_sortLE {α : Type} {le : α → α → Bool} {a : α} {l : List α} :
    a ∈ sortLE le l ↔ a ∈ l :=
  (sortLE_perm le l).mem_iff

theorem length_sortLE {α : Type} (le : α → α → Bool) (l : List α) :
    (sortLE le l).length = l.length :=
  (sortLE_perm le l).length_eq

theorem pairwise_insertLE {α : Type} {le : α → α → Bool}
    (htrans : ∀ x y z, le x y = true → le y z = true → le x z = true)
    (htotal : ∀ x y, le x y = true ∨ le y x = true)
    (a : α) (l : List α) (h : l.Pairwise (fun x y => le x y = true)) :
    (insertLE le a l).Pairwise (fun x y => le x y = true) := by
  induction l with
  | nil => simp [insertLE]
  | cons b rest ih =>
      rw [List.pairwise_cons] at h
      unfold insertLE
      by_cases hab : le a b = true
      · rw [if_pos hab, List.pairwise_cons]
        constructor
        · intro x hx
          rcases List.mem_cons.mp hx with rfl | hx'
          · exact hab
          · exact htrans a b x hab (h.1 x hx')
        · exact List.pairwise_cons.mpr h
      · rw [if_neg hab, List.pairwise_cons]
        constructor
        · intro x hx
          have hx2 := (insertLE_perm le a rest).mem_iff.mp hx
          rcases List.mem_cons.mp hx2 with rfl | hx'
          · rcases htotal x b with hc | hc
            · exact absurd hc hab
            · exact hc
          · exact h.1 x hx'
        · exact ih h.2

theorem pairwise_sortLE {α : Type} {le : α → α → Bool}
    (htrans : ∀ x y z, le x y = true → le y z = true → le x z = true)
    (htotal : ∀ x y, le x y = true ∨ le y x = true) (l : List α) :
    (sortLE le l).Pairwise (fun x y => le x y = true) := by
  induction l with
  | nil => simp [sortLE]
  | cons a rest ih => exact pairwise_insertLE htrans htotal a _ ih

/-- Claim C4: with neither cleanup flag set, only the remote copy of InSync
files is selected for deletion and never a local copy; and under every flag
combination, the local copy is selected only when the local flag is set
(stated as: with the local flag unset, the local copy is never selected). -/
theorem claim4_cleanup_safety (file : File) (remote : Bool) :
    shouldCleanup file false false =
      (decide (file.status = Status.InSync), false) ∧
    (shouldCleanup file remote false).2 = false := by
  obtain ⟨d, n, c, s, st⟩ := file
  constructor
  · cases st <;> simp [shouldCleanup]
  · cases st <;> cases remote <;> simp [shouldCleanup]

/-- Claim C8: adjustTimestamps maps each directory group to a group with the
same directory name and pointwise items whose creation time is the original
shifted by the timezone offset in minutes (createdAt minus tzOffset times 60
seconds), leaving filename and size unchanged. -/
theorem claim8_timestamp_adjustment (ml : MediaList) (tzOffset : Int) :
    List.Forall₂ (fun g g' =>
      g'.directory = g.directory ∧
      List.Forall₂ (fun it it' =>
        it'.filename = it.filename ∧ it'.size = it.size ∧
        it'.createdAt = it.createdAt - tzOffset * 60) g.items g'.items)
      ml.media (adjustTimestamps ml tzOffset).media := by
  unfold adjustTimestamps
  rw [List.forall₂_map_right_iff, List.forall₂_same]
  intro g _
  refine ⟨rfl, ?_⟩
  rw [List.forall₂_map_right_iff, List.forall₂_same]
  intro it _
  exact ⟨rfl, rfl, rfl⟩

/-- Claim C5 (code bug): the spec requires the scan of a missing directory to
yield an empty mapping without error (as the older getLocalFiles does), but
scanLocalFiles, which NewInventory uses, propagates the not-exist error of
os.ReadDir; the rest of the claim holds: any scan failure aborts the build
with no partial inventory. This theorem evaluates both scans on a missing
directory and shows the builder propagates every scan failure. -/
theorem claim5_scan_missing_dir :
    scanLocalFiles DirState.missing = Except.error "reading directory" ∧
    getLocalFiles DirState.missing = Except.ok [] ∧
    (∀ (ml : MediaList) (out : DirState) (d1 d2 : String),
      newInventoryScanned ml DirState.missing out d1 d2 =
        Except.error "reading directory") ∧
    (∀ (ml : MediaList) (out : DirState) (d1 d2 : String),
      newInventoryScanned ml DirState.unreadable out d1 d2 =
        Except.error "reading directory") ∧
    (∀ (ml : MediaList) (entries : List (String × LocalInfo)) (d1 d2 : String),
      newInventoryScanned ml (DirState.readable entries) DirState.unreadable d1 d2 =
        Except.error "reading directory") :=
  ⟨rfl, rfl, fun _ _ _ _ => rfl, fun _ _ _ _ => rfl, fun _ _ _ _ => rfl⟩

theorem mem_mediaIDsAux_of_mem_acc (files : List File) (acc : List Nat)
    (x : Nat) (h : x ∈ acc) : x ∈ mediaIDsAux files acc := by
  induction files generalizing acc with
  | nil => exact h
  | cons f rest ih =>
      unfold mediaIDsAux
      by_cases hp : f.status = Status.Processed
      · simp only [hp, if_pos rfl]
        exact ih acc h
      · simp only [if_neg hp]
        by_cases hm : (ParseFilename f.filename).mediaID ∈ acc
        · simp only [if_pos hm]
          exact ih acc h
        · simp only [if_neg hm]
          exact ih _ (List.mem_append_left _ h)

theorem mediaID_mem_mediaIDsAux (files : List File) (acc : List Nat)
    (f : File) (hf : f ∈ files) (hs : f.status ≠ Status.Processed) :
    (ParseFilename f.filename).mediaID ∈ mediaIDsAux files acc := by
  induction files generalizing acc with
  | nil => cases hf
  | cons g rest ih =>
      unfold mediaIDsAux
      rcases List.mem_cons.mp hf with hEq | hMem
      · subst hEq
        simp only [if_neg hs]
        by_cases hm : (ParseFilename f.filename).mediaID ∈ acc
        · simp only [if_pos hm]
          exact mem_mediaIDsAux_of_mem_acc rest acc _ hm
        · simp only [if_neg hm]
          exact mem_mediaIDsAux_of_mem_acc rest _ _
            (List.mem_append_right _ (List.mem_singleton.mpr rfl))
      · by_cases hp : g.status = Status.Processed
        · simp only [hp, if_pos rfl]
          exact ih acc hMem
        · simp only [if_neg hp]
          by_cases hm : (ParseFilename g.filename).mediaID ∈ acc
          · simp only [if_pos hm]
            exact ih acc hMem
          · simp only [if_neg hm]
            exact ih _ hMem

theorem parseFilename_invalid_shape (s : String) :
    (ParseFilename s).isValid = true ∨
      ParseFilename s = { quality := "", chapter := 0, mediaID := 0,
                          fileType := "", isValid := false, filename := s } := by
  unfold ParseFilename
  split
  · split
    · left
      rfl
    · right
      rfl
  · right
    rfl

theorem parse_invalid_mediaID_zero (s : String)
    (h : (ParseFilename s).isValid = false) : (ParseFilename s).mediaID = 0 := by
  rcases parseFilename_invalid_shape s with hv | hEq
  · rw [hv] at h
    cases h
  · rw [hEq]

/-- An inventory whose only non-Processed file has a name the Filename
Decoder rejects; used to exhibit the zero-media-id behaviour. -/
def undecodableDemo : List File :=
  [{ directory := "/incoming", filename := "notgopro.mp4", createdAt := 0,
     size := 100, status := Status.OnlyLocal }]

/-- Claim C10: MediaIDs derives grouping keys from every non-Processed record
including those whose filename fails to decode, so an undecodable filename
contributes the zero media id, while FilterByMediaID excludes decode-invalid
records; on an inventory whose only non-Processed file is undecodable,
MediaIDs returns the singleton zero but FilterByMediaID on zero reports the
no-match error. -/
theorem claim10_mediaids_zero_key :
    (∀ (files : List File) (f : File), f ∈ files →
        f.status ≠ Status.Processed → (ParseFilename f.filename).isValid = false →
        0 ∈ MediaIDs files) ∧
    MediaIDs undecodableDemo = [0] ∧
    FilterByMediaID undecodableDemo 0 =
      Except.error "no matching files found for Media ID" := by
  refine ⟨?_, by decide, rfl⟩
  intro files f hf hs hinv
  have h0 : (ParseFilename f.filename).mediaID = 0 :=
    parse_invalid_mediaID_zero _ hinv
  have hm := mediaID_mem_mediaIDsAux files [] f hf hs
  rw [h0] at hm
  exact mem_sortLE.mpr hm

/-- Witness for claim C10 at the concrete undecodable inventory. -/
theorem claim10_mediaids_zero_key_witness : 0 ∈ MediaIDs undecodableDemo :=
  claim10_mediaids_zero_key.1 undecodableDemo
    { directory := "/incoming", filename := "notgopro.mp4", createdAt := 0,
      size := 100, status := Status.OnlyLocal }
    (by decide) (by decide) (by decide)

/-- The three-chapter inventory of the grouping-order test, listed out of
chapter order. -/
def chapterDemo : List File :=
  [{ directory := "100GOPRO", filename := "GH030007.MP4", createdAt := 30,
     size := 1000, status := Status.InSync },
   { directory := "100GOPRO", filename := "GH010007.MP4", createdAt := 10,
     size := 1000, status := Status.InSync },
   { directory := "100GOPRO", filename := "GH020007.MP4", createdAt := 20,
     size := 1000, status := Status.InSync }]

/-- Claim C3: a successful FilterByMediaID returns exactly the non-Processed
records that decode as valid with the requested media id (as a permutation of
the filtered inventory) sorted by chapter ascending; and on the three-chapter
example listed out of order it returns chapters 01, 02, 03 in order. -/
theorem claim3_filter_by_media_id :
    (∀ (files : List File) (mediaID : Nat) (res : List File),
        FilterByMediaID files mediaID = Except.ok res →
          res.Perm (files.filter (mediaIDPred mediaID)) ∧
          res.Pairwise (fun a b =>
            (ParseFilename a.filename).chapter ≤ (ParseFilename b.filename).chapter)) ∧
    FilterByMediaID chapterDemo 7 = Except.ok
      [{ directory := "100GOPRO", filename := "GH010007.MP4", createdAt := 10,
         size := 1000, status := Status.InSync },
       { directory := "100GOPRO", filename := "GH020007.MP4", createdAt := 20,
         size := 1000, status := Status.InSync },
       { directory := "100GOPRO", filename := "GH030007.MP4", createdAt := 30,
         size := 1000, status := Status.InSync }] := by
  constructor
  · intro files mediaID res h
    unfold FilterByMediaID at h
    by_cases he : (sortLE chapterLE (files.filter (mediaIDPred mediaID))).isEmpty = true
    · rw [if_pos he] at h
      cases h
    · rw [if_neg he] at h
      cases h
      constructor
      · exact sortLE_perm chapterLE _
      · have hp := @pairwise_sortLE File chapterLE
          (fun x y z hxy hyz => by
            simp only [chapterLE, decide_eq_true_eq] at *
            omega)
          (fun x y => by
            simp only [chapterLE, decide_eq_true_eq]
            omega)
          (files.filter (mediaIDPred mediaID))
        exact hp.imp (fun hxy => by
          simpa only [chapterLE, decide_eq_true_eq] using hxy)
  · rfl

/-- Witness for claim C3 at the three-chapter example. -/
theorem claim3_filter_by_media_id_witness :
    ((sortLE chapterLE (chapterDemo.filter (mediaIDPred 7))).Perm
      (chapterDemo.filter (mediaIDPred 7))) ∧
    (sortLE chapterLE (chapterDemo.filter (mediaIDPred 7))).Pairwise (fun a b =>
      (ParseFilename a.filename).chapter ≤ (ParseFilename b.filename).chapter) := by
  have h := claim3_filter_by_media_id.1 chapterDemo 7
    (sortLE chapterLE (chapterDemo.filter (mediaIDPred 7))) rfl
  exact h

/-- Claim C9 counterexample: the claim asserts that a media-list item whose
numeric fields arrive as JSON numbers decodes without error, but the
MediaListItem.UnmarshalJSON of internal/gopro/models.go unmarshals those
fields into Go strings, so a JSON-number payload fails to decode. -/
theorem claim9_counterexample :
    mediaListItemUnmarshalModels "GH010007.MP4" (Json.num 1696600000)
      (Json.num 1000) =
      Except.error "cannot unmarshal into field of type string" := rfl

/-- Claim C9 as amended: the Timestamp and String64 decoders of the newer
models revision accept both JSON numbers and numeric strings, yield the same
value for both representations, and error exactly on non-numeric payloads;
the models.go MediaListItem decoder accepts only the numeric-string
representation and errors whenever a field is a JSON number. -/
theorem claim9_amended_decoders :
    (∀ n : Int, timestampUnmarshalJSON (Json.num n) = Except.ok n) ∧
    (∀ (s : String) (n : Int), parseIntGo s = some n →
        timestampUnmarshalJSON (Json.str s) = Except.ok n) ∧
    (∀ n : Int, string64UnmarshalJSON (Json.num n) = Except.ok n) ∧
    (∀ (s : String) (n : Int), parseIntGo s = some n →
        string64UnmarshalJSON (Json.str s) = Except.ok n) ∧
    (∀ j : Json, ¬ numericJson j →
        ∃ e, timestampUnmarshalJSON j = Except.error e) ∧
    (∀ j : Json, ¬ numericJson j →
        ∃ e, string64UnmarshalJSON j = Except.error e) ∧
    (∀ (name cs ss : String) (n m : Int),
        parseIntGo cs = some n → parseIntGo ss = some m →
        mediaListItemUnmarshalFields name (Json.str cs) (Json.str ss) =
          mediaListItemUnmarshalFields name (Json.num n) (Json.num m) ∧
        mediaListItemUnmarshalFields name (Json.str cs) (Json.str ss) =
          Except.ok { filename := name, createdAt := n, size := m }) ∧
    (∀ (name cs ss : String) (n m : Int),
        parseIntGo cs = some n → parseIntGo ss = some m →
        mediaListItemUnmarshalModels name (Json.str cs) (Json.str ss) =
          Except.ok { filename := name, createdAt := n, size := m }) ∧
    (∀ (name : String) (n : Int) (s : Json),
        ∃ e, mediaListItemUnmarshalModels name (Json.num n) s =
          Except.error e) := by
  refine ⟨fun n => rfl, ?_, fun n => rfl, ?_, ?_, ?_, ?_, ?_, ?_⟩
  · intro s n h
    simp [timestampUnmarshalJSON, h]
  · intro s n h
    simp [string64UnmarshalJSON, h]
  · intro j hj
    cases j with
    | num n => exact absurd (Or.inl ⟨n, rfl⟩) hj
    | str s =>
        cases hp : parseIntGo s with
        | none =>
            refine ⟨"invalid syntax", ?_⟩
            simp [timestampUnmarshalJSON, hp]
        | some n =>
            exact absurd (Or.inr ⟨s, rfl, by rw [hp]; rfl⟩) hj
    | other => exact ⟨"unexpected type for Timestamp", rfl⟩
  · intro j hj
    cases j with
    | num n => exact absurd (Or.inl ⟨n, rfl⟩) hj
    | str s =>
        cases hp : parseIntGo s with
        | none =>
            refine ⟨"invalid syntax", ?_⟩
            simp [string64UnmarshalJSON, hp]
        | some n =>
            exact absurd (Or.inr ⟨s, rfl, by rw [hp]; rfl⟩) hj
    | other => exact ⟨"unexpected type for String64", rfl⟩
  · intro name cs ss n m hcs hss
    constructor
    · simp [mediaListItemUnmarshalFields, timestampUnmarshalJSON,
        string64UnmarshalJSON, hcs, hss]
    · simp [mediaListItemUnmarshalFields, timestampUnmarshalJSON,
        string64UnmarshalJSON, hcs, hss]
  · intro name cs ss n m hcs hss
    simp [mediaListItemUnmarshalModels, hcs, hss]
  · intro name n s
    cases s <;> exact ⟨"cannot unmarshal into field of type string", rfl⟩

/-- Witness for the amended claim C9 at a concrete numeric string. -/
theorem claim9_amended_decoders_witness :
    timestampUnmarshalJSON (Json.str "1696600000") = Except.ok 1696600000 :=
  claim9_amended_decoders.2.1 "1696600000" 1696600000 (by decide)

/-- A remote listing with two items sharing a creation time, listed with
filenames in descending order; used to exhibit the missing tie-break. -/
def tieDemoList : MediaList :=
  { id := "1",
    media := [{ directory := "100GOPRO",
                items := [{ filename := "B.MP4", createdAt := 100, size := 1 },
                          { filename := "A.MP4", createdAt := 100, size := 1 }] }] }

/-- Claim C6 counterexample: the claim asserts records with equal createdAt
are ordered by filename ascending, but the sort comparator of NewInventory
only compares createdAt, so two records tied on createdAt keep their
construction order; here the output lists B.MP4 before A.MP4 although
A.MP4 sorts before B.MP4. -/
theorem claim6_counterexample :
    (newInventory tieDemoList [] [] "/in" "/out").map File.filename =
      ["B.MP4", "A.MP4"] ∧
    (newInventory tieDemoList [] [] "/in" "/out").map File.createdAt =
      [100, 100] ∧
    List.Lex (fun a b : Char => a < b) "A.MP4".data "B.MP4".data := by
  exact ⟨by decide, by decide, by decide⟩

theorem inventory_sorted_by_createdAt (ml : MediaList)
    (incoming outgoing : FileMap) (incomingDir outgoingDir : String) :
    (newInventory ml incoming outgoing incomingDir outgoingDir).Pairwise
      (fun a b => a.createdAt ≤ b.createdAt) := by
  unfold newInventory
  have hp := @pairwise_sortLE File createdLE
    (fun x y z hxy hyz => by
      simp only [createdLE, decide_eq_true_eq] at *
      omega)
    (fun x y => by
      simp only [createdLE, decide_eq_true_eq]
      omega)
    ((processRemoteFiles ml incoming).1 ++
      processIncomingFiles (processRemoteFiles ml incoming).2 incomingDir ++
      processOutgoingFiles outgoing outgoingDir)
  exact hp.imp (fun hxy => by
    simpa only [createdLE, decide_eq_true_eq] using hxy)

/-- Claim C6 as amended: the built inventory is sorted ascending by
createdAt, but no filename tie-break is applied; records with equal
createdAt keep their construction order. -/
theorem claim6_amended_sorted (ml : MediaList) (incoming outgoing : FileMap)
    (incomingDir outgoingDir : String) :
    (newInventory ml incoming outgoing incomingDir outgoingDir).Pairwise
      (fun a b => a.createdAt ≤ b.createdAt) :=
  inventory_sorted_by_createdAt ml incoming outgoing incomingDir outgoingDir

theorem remoteNames_def (ml : MediaList) :
    remoteNames ml = (remoteItems ml).map (fun p => p.2.filename) := rfl

/-- Claim C1: the inventory builder assigns statuses exactly by the spec's
table. Every remote item yields a record whose status is InSync when the
filename is in incoming with equal size, OutOfSync when in incoming with a
different size, and OnlyRemote otherwise (specRemoteStatus is that table);
remote records carry no other status; the leftover incoming records are
exactly the incoming files absent from the remote listing, with status
OnlyLocal (the spec's OnlyLocalIncoming); and every outgoing file yields a
Processed record. Remote filenames are assumed unique (the device's DCIM
naming), matching the spec's one-location-per-record data model. -/
theorem claim1_status_table (ml : MediaList) (incoming outgoing : FileMap)
    (incomingDir outgoingDir : String) (hml : (remoteNames ml).Nodup) :
    (∀ p ∈ remoteItems ml,
        ({ directory := p.1, filename := p.2.filename,
           createdAt := p.2.createdAt, size := p.2.size,
           status := specRemoteStatus incoming p.2 } : File) ∈
          (processRemoteFiles ml incoming).1) ∧
    (∀ rec ∈ (processRemoteFiles ml incoming).1, ∃ p ∈ remoteItems ml,
        rec = { directory := p.1, filename := p.2.filename,
                createdAt := p.2.createdAt, size := p.2.size,
                status := specRemoteStatus incoming p.2 }) ∧
    (∀ rec ∈ processIncomingFiles (processRemoteFiles ml incoming).2 incomingDir,
        rec.status = Status.OnlyLocal ∧
        (lookupKey incoming rec.filename).isSome = true ∧
        rec.filename ∉ remoteNames ml) ∧
    (∀ e ∈ incoming, e.1 ∉ remoteNames ml →
        ({ directory := incomingDir, filename := e.1, createdAt := e.2.modTime,
           size := e.2.size, status := Status.OnlyLocal } : File) ∈
          processIncomingFiles (processRemoteFiles ml incoming).2 incomingDir) ∧
    (∀ rec ∈ processOutgoingFiles outgoing outgoingDir,
        rec.status = Status.Processed) ∧
    (∀ e ∈ outgoing,
        ({ directory := outgoingDir, filename := e.1, createdAt := e.2.modTime,
           size := e.2.size, status := Status.Processed } : File) ∈
          processOutgoingFiles outgoing outgoingDir) := by
  have hml' : ((remoteItems ml).map (fun p => p.2.filename)).Nodup := hml
  have hfst := processFlat_fst (remoteItems ml) incoming hml'
  have hsnd := processFlat_snd (remoteItems ml) incoming
  rw [processRemoteFiles_eq_processFlat]
  refine ⟨?_, ?_, ?_, ?_, ?_, ?_⟩
  · intro p hp
    rw [hfst]
    refine List.mem_map.mpr ⟨p, hp, ?_⟩
    rw [processItem_fst_eq]
  · intro rec hrec
    rw [hfst] at hrec
    obtain ⟨p, hp, hEq⟩ := List.mem_map.mp hrec
    exact ⟨p, hp, by rw [← hEq, processItem_fst_eq]⟩
  · intro rec hrec
    unfold processIncomingFiles at hrec
    obtain ⟨e, he, hEq⟩ := List.mem_map.mp hrec
    rw [hsnd] at he
    have heIn : e ∈ incoming := List.mem_of_mem_filter he
    have hePred := List.of_mem_filter he
    refine ⟨by rw [← hEq], ?_, ?_⟩
    · rw [← hEq]
      exact lookupKey_isSome_of_mem heIn
    · rw [← hEq, remoteNames_def]
      simpa using hePred
  · intro e he hnot
    unfold processIncomingFiles
    refine List.mem_map.mpr ⟨e, ?_, rfl⟩
    rw [hsnd]
    rw [remoteNames_def] at hnot
    exact List.mem_filter.mpr ⟨he, by simpa using hnot⟩
  · intro rec hrec
    obtain ⟨e, he, hEq⟩ := List.mem_map.mp hrec
    rw [← hEq]
  · intro e he
    exact List.mem_map.mpr ⟨e, he, rfl⟩

/-- Witness for claim C1: one remote item matched by an equal-size incoming
file produces the InSync record. -/
theorem claim1_status_table_witness :
    ({ directory := "100GOPRO", filename := "GH010007.MP4", createdAt := 100,
       size := 1000, status := Status.InSync } : File) ∈
      (processRemoteFiles
        { id := "",
          media := [{ directory := "100GOPRO",
                      items := [{ filename := "GH010007.MP4", createdAt := 100,
                                  size := 1000 }] }] }
        [("GH010007.MP4", { size := 1000, modTime := 50 })]).1 :=
  (claim1_status_table
      { id := "",
        media := [{ directory := "100GOPRO",
                    items := [{ filename := "GH010007.MP4", createdAt := 100,
                                size := 1000 }] }] }
      [("GH010007.MP4", { size := 1000, modTime := 50 })] [] "/in" "/out"
      (by decide)).1
    ("100GOPRO", { filename := "GH010007.MP4", createdAt := 100, size := 1000 })
    (by decide)

theorem distinctCount_append (A B : List String) (hA : A.Nodup) (hB : B.Nodup) :
    distinctCount (A ++ B) =
      A.length + (B.filter (fun b => decide (b ∉ A))).length := by
  unfold distinctCount
  have h1 : (A ++ B).toFinset = (A ++ B.filter (fun b => decide (b ∉ A))).toFinset := by
    ext x
    simp only [List.mem_toFinset, List.mem_append, List.mem_filter,
      decide_eq_true_eq]
    tauto
  have hN : (A ++ B.filter (fun b => decide (b ∉ A))).Nodup := by
    rw [List.nodup_append]
    refine ⟨hA, hB.filter _, ?_⟩
    intro x hx hx2
    have hp := List.of_mem_filter hx2
    rw [decide_eq_true_eq] at hp
    exact hp hx
  rw [h1, List.toFinset_card_of_nodup hN, List.length_append]

theorem length_filter_eqkey_le_one {α : Type} (key : α → String) (q : α → Bool)
    (l : List α) (hd : (l.map key).Nodup) (f : String) :
    (l.filter (fun x => q x && decide (key x = f))).length ≤ 1 := by
  induction l with
  | nil => simp
  | cons a t ih =>
      rw [List.map_cons, List.nodup_cons] at hd
      rw [List.filter_cons]
      by_cases hk : key a = f
      · have ht : t.filter (fun x => q x && decide (key x = f)) = [] := by
          rw [List.filter_eq_nil_iff]
          intro x hx
          have hne : key x ≠ f := by
            intro hEq
            exact hd.1 (by rw [hk, ← hEq]; exact List.mem_map.mpr ⟨x, hx, rfl⟩)
          simp [hne]
        cases hq : (q a && decide (key a = f)) <;> simp [hq, ht]
      · have hq : (q a && decide (key a = f)) = false := by simp [hk]
        rw [hq]
        simpa using ih hd.2

theorem filter_map_fst_length (l : FileMap) (p : String → Bool) :
    ((l.map Prod.fst).filter p).length = (l.filter (fun e => p e.1)).length := by
  induction l with
  | nil => rfl
  | cons e t ih =>
      rw [List.map_cons, List.filter_cons, List.filter_cons]
      cases hp : p e.1 <;> simp [hp, ih]

theorem processFlat_fst_names (l : List (String × MediaListItem))
    (incoming : FileMap) (h : (l.map (fun p => p.2.filename)).Nodup) :
    ((processFlat l incoming).1).map File.filename =
      l.map (fun p => p.2.filename) := by
  rw [processFlat_fst l incoming h, List.map_map]
  apply List.map_congr_left
  intro p _
  show ((processItem p.1 p.2 incoming).1).filename = p.2.filename
  rw [processItem_fst_eq]

theorem processIncomingFiles_names (m : FileMap) (d : String) :
    (processIncomingFiles m d).map File.filename = m.map Prod.fst := by
  unfold processIncomingFiles
  rw [List.map_map]
  rfl

theorem processOutgoingFiles_status (m : FileMap) (d : String) :
    ∀ rec ∈ processOutgoingFiles m d, rec.status = Status.Processed := by
  intro rec hrec
  obtain ⟨e, _, hEq⟩ := List.mem_map.mp hrec
  rw [← hEq]

theorem specRemoteStatus_ne_processed (incoming : FileMap)
    (it : MediaListItem) : specRemoteStatus incoming it ≠ Status.Processed := by
  unfold specRemoteStatus
  cases lookupKey incoming it.filename with
  | none => simp
  | some info => by_cases h : info.size = it.size <;> simp [h]

/-- A remote listing and an outgoing map that share the single filename
A.MP4; outgoing records are never merged, so two records result. -/
def claim2DemoList : MediaList :=
  { id := "",
    media := [{ directory := "100GOPRO",
                items := [{ filename := "A.MP4", createdAt := 5, size := 1 }] }] }

def claim2DemoOut : FileMap := [("A.MP4", { size := 1, modTime := 7 })]

/-- Claim C2 counterexample: the claim asserts exactly one record per
distinct filename across the three inputs with only the remote/incoming
collapse excepted, but an outgoing file sharing its filename with a remote
file yields two records while the distinct-filename count is one. -/
theorem claim2_counterexample :
    (newInventory claim2DemoList [] claim2DemoOut "/in" "/out").length ≠
      distinctCount (remoteNames claim2DemoList ++
        ([] : FileMap).map Prod.fst ++ claim2DemoOut.map Prod.fst) := by
  decide

/-- Claim C2 as amended: with filenames unique within each listing, the
built inventory has exactly one record per distinct filename across remote
and incoming (a remote/incoming pair sharing a filename collapses to one
merged record) plus one independent record per outgoing file, which may
duplicate a remote or incoming filename; no input filename is lost; and at
most one non-Processed record exists per filename per build. -/
theorem claim2_conservation (ml : MediaList) (incoming outgoing : FileMap)
    (d1 d2 : String) (hml : (remoteNames ml).Nodup)
    (hinc : (incoming.map Prod.fst).Nodup) :
    (newInventory ml incoming outgoing d1 d2).length =
      distinctCount (remoteNames ml ++ incoming.map Prod.fst) +
        outgoing.length ∧
    (∀ f ∈ remoteNames ml ++ incoming.map Prod.fst ++ outgoing.map Prod.fst,
        ∃ rec ∈ newInventory ml incoming outgoing d1 d2, rec.filename = f) ∧
    (∀ f : String,
        ((newInventory ml incoming outgoing d1 d2).filter
          (fun r => decide (r.status ≠ Status.Processed) &&
            decide (r.filename = f))).length ≤ 1) := by
  have hml' : ((remoteItems ml).map (fun p => p.2.filename)).Nodup := hml
  have hperm : (newInventory ml incoming outgoing d1 d2).Perm
      ((processRemoteFiles ml incoming).1 ++
        processIncomingFiles (processRemoteFiles ml incoming).2 d1 ++
        processOutgoingFiles outgoing d2) := sortLE_perm _ _
  have hrem_names : ((processRemoteFiles ml incoming).1).map File.filename =
      remoteNames ml := by
    rw [processRemoteFiles_eq_processFlat]
    exact processFlat_fst_names _ _ hml'
  have hsnd : (processRemoteFiles ml incoming).2 =
      incoming.filter
        (fun e => decide (e.1 ∉ (remoteItems ml).map (fun p => p.2.filename))) := by
    rw [processRemoteFiles_eq_processFlat]
    exact processFlat_snd _ _
  have hinc_names :
      (processIncomingFiles (processRemoteFiles ml incoming).2 d1).map
        File.filename =
      (incoming.filter
        (fun e => decide (e.1 ∉ (remoteItems ml).map (fun p => p.2.filename)))).map
        Prod.fst := by
    rw [processIncomingFiles_names, hsnd]
  refine ⟨?_, ?_, ?_⟩
  · rw [hperm.length_eq, List.length_append, List.length_append]
    have h1 : ((processRemoteFiles ml incoming).1).length =
        (remoteNames ml).length := by
      rw [← hrem_names, List.length_map]
    have h2 : (processIncomingFiles (processRemoteFiles ml incoming).2 d1).length =
        ((incoming.map Prod.fst).filter
          (fun k => decide (k ∉ remoteNames ml))).length := by
      unfold processIncomingFiles
      rw [List.length_map, hsnd, ← remoteNames_def, filter_map_fst_length]
    have h3 : (processOutgoingFiles outgoing d2).length = outgoing.length := by
      unfold processOutgoingFiles
      rw [List.length_map]
    rw [h1, h2, h3, distinctCount_append _ _ hml hinc]
  · intro f hf
    have hinRem : f ∈ remoteNames ml →
        ∃ rec ∈ newInventory ml incoming outgoing d1 d2, rec.filename = f := by
      intro hfr
      have hm : f ∈ ((processRemoteFiles ml incoming).1).map File.filename := by
        rw [hrem_names]
        exact hfr
      obtain ⟨rec, hrec, hEq⟩ := List.mem_map.mp hm
      exact ⟨rec, hperm.mem_iff.mpr
        (List.mem_append.mpr (Or.inl (List.mem_append.mpr (Or.inl hrec)))), hEq⟩
    rcases List.mem_append.mp hf with hf1 | hfo
    · rcases List.mem_append.mp hf1 with hfr | hfi
      · exact hinRem hfr
      · by_cases hfr : f ∈ remoteNames ml
        · exact hinRem hfr
        · obtain ⟨e, he, hEq⟩ := List.mem_map.mp hfi
          have hjoin : e ∈ (processRemoteFiles ml incoming).2 := by
            rw [hsnd]
            refine List.mem_filter.mpr ⟨he, ?_⟩
            simp only [← remoteNames_def, decide_eq_true_eq]
            rw [hEq]
            exact hfr
          refine ⟨{ directory := d1, filename := e.1, createdAt := e.2.modTime,
                    size := e.2.size, status := Status.OnlyLocal }, ?_, hEq⟩
          refine hperm.mem_iff.mpr
            (List.mem_append.mpr (Or.inl (List.mem_append.mpr (Or.inr ?_))))
          exact List.mem_map.mpr ⟨e, hjoin, rfl⟩
    · obtain ⟨e, he, hEq⟩ := List.mem_map.mp hfo
      refine ⟨{ directory := d2, filename := e.1, createdAt := e.2.modTime,
                size := e.2.size, status := Status.Processed }, ?_, hEq⟩
      refine hperm.mem_iff.mpr (List.mem_append.mpr (Or.inr ?_))
      exact List.mem_map.mpr ⟨e, he, rfl⟩
  · intro f
    have hpf := ((hperm.filter
      (fun r => decide (r.status ≠ Status.Processed) &&
        decide (r.filename = f)))).length_eq
    rw [hpf, List.filter_append, List.length_append]
    have hout0 : ((processOutgoingFiles outgoing d2).filter
        (fun r => decide (r.status ≠ Status.Processed) &&
          decide (r.filename = f))).length = 0 := by
      have hnil : (processOutgoingFiles outgoing d2).filter
          (fun r => decide (r.status ≠ Status.Processed) &&
            decide (r.filename = f)) = [] := by
        rw [List.filter_eq_nil_iff]
        intro rec hrec
        have hs := processOutgoingFiles_status outgoing d2 rec hrec
        simp [hs]
      rw [hnil]
      rfl
    have hmain : (((processRemoteFiles ml incoming).1 ++
        processIncomingFiles (processRemoteFiles ml incoming).2 d1).filter
          (fun r => decide (r.status ≠ Status.Processed) &&
            decide (r.filename = f))).length ≤ 1 := by
      apply length_filter_eqkey_le_one File.filename
        (fun r => decide (r.status ≠ Status.Processed))
      rw [List.map_append, hrem_names, hinc_names, List.nodup_append]
      refine ⟨hml, ?_, ?_⟩
      · exact List.Nodup.sublist
          (List.Sublist.map Prod.fst (List.filter_sublist incoming)) hinc
      · intro x hx hx2
        obtain ⟨e, he, hEq⟩ := List.mem_map.mp hx2
        have hp := List.of_mem_filter he
        rw [decide_eq_true_eq, ← remoteNames_def] at hp
        rw [← hEq] at hx
        exact hp hx
    omega

/-- Witness for the amended claim C2 at the shared-filename example. -/
theorem claim2_conservation_witness :
    (newInventory claim2DemoList [] claim2DemoOut "/in" "/out").length =
      distinctCount (remoteNames claim2DemoList ++
        ([] : FileMap).map Prod.fst) + claim2DemoOut.length :=
  (claim2_conservation claim2DemoList [] claim2DemoOut "/in" "/out"
    (by decide) (by decide)).1

theorem lookupKey_eq_some_iff {m : FileMap} (hm : (m.map Prod.fst).Nodup)
    (k : String) (v : LocalInfo) :
    lookupKey m k = some v ↔ (k, v) ∈ m := by
  induction m with
  | nil => simp [lookupKey]
  | cons p rest ih =>
      obtain ⟨key, w⟩ := p
      rw [List.map_cons, List.nodup_cons] at hm
      rw [lookupKey_cons]
      by_cases hk : key = k
      · subst hk
        rw [if_pos rfl]
        constructor
        · intro h
          injection h with h
          exact List.mem_cons.mpr (Or.inl (by rw [h]))
        · intro h
          rcases List.mem_cons.mp h with hEq | hMem
          · have hv := (Prod.mk.injEq _ _ _ _).mp hEq
            rw [hv.2]
          · exact absurd (List.mem_map.mpr ⟨(key, v), hMem, rfl⟩) hm.1
      · rw [if_neg hk, ih hm.2]
        constructor
        · intro h
          exact List.mem_cons.mpr (Or.inr h)
        · intro h
          rcases List.mem_cons.mp h with hEq | hMem
          · exact absurd ((Prod.mk.injEq _ _ _ _).mp hEq).1.symm hk
          · exact hMem

theorem lookupKey_perm {m₁ m₂ : FileMap} (h : m₁.Perm m₂)
    (hm : (m₁.map Prod.fst).Nodup) (k : String) :
    lookupKey m₁ k = lookupKey m₂ k := by
  have hm₂ : (m₂.map Prod.fst).Nodup := ((h.map Prod.fst).nodup_iff).mp hm
  cases h1 : lookupKey m₁ k with
  | none =>
      rw [lookupKey_eq_none_iff] at h1
      have h2 : k ∉ m₂.map Prod.fst := fun hk =>
        h1 ((h.map Prod.fst).mem_iff.mpr hk)
      exact ((lookupKey_eq_none_iff m₂ k).mpr h2).symm
  | some v =>
      have hmem := (lookupKey_eq_some_iff hm k v).mp h1
      exact ((lookupKey_eq_some_iff hm₂ k v).mpr (h.mem_iff.mp hmem)).symm

theorem processFlat_resp_perm (l : List (String × MediaListItem)) :
    ∀ (m₁ m₂ : FileMap), m₁.Perm m₂ → (m₁.map Prod.fst).Nodup →
      (processFlat l m₁).1 = (processFlat l m₂).1 ∧
      (processFlat l m₁).2.Perm (processFlat l m₂).2 := by
  induction l with
  | nil => exact fun m₁ m₂ h _ => ⟨rfl, h⟩
  | cons p rest ih =>
      intro m₁ m₂ h hm
      have hl := lookupKey_perm h hm p.2.filename
      have hhead : (processItem p.1 p.2 m₁).1 = (processItem p.1 p.2 m₂).1 :=
        processItem_fst_congr _ _ hl
      have hstep : (processItem p.1 p.2 m₁).2.Perm (processItem p.1 p.2 m₂).2 := by
        rw [processItem_snd, processItem_snd]
        exact h.filter _
      have hstepN : ((processItem p.1 p.2 m₁).2.map Prod.fst).Nodup := by
        rw [processItem_snd]
        exact List.Nodup.sublist
          (List.Sublist.map Prod.fst (List.filter_sublist m₁)) hm
      obtain ⟨ha, hb⟩ := ih _ _ hstep hstepN
      constructor
      · simp only [processFlat]
        rw [hhead, ha]
      · simp only [processFlat]
        exact hb

theorem newInventory_resp_perm (ml : MediaList) (inc₁ inc₂ out₁ out₂ : FileMap)
    (d1 d2 : String) (hinc : inc₁.Perm inc₂) (hout : out₁.Perm out₂)
    (hN : (inc₁.map Prod.fst).Nodup) :
    (newInventory ml inc₁ out₁ d1 d2).Perm (newInventory ml inc₂ out₂ d1 d2) := by
  unfold newInventory
  rw [processRemoteFiles_eq_processFlat, processRemoteFiles_eq_processFlat]
  obtain ⟨ha, hb⟩ := processFlat_resp_perm (remoteItems ml) inc₁ inc₂ hinc hN
  have hmid : ((processFlat (remoteItems ml) inc₁).1 ++
      processIncomingFiles (processFlat (remoteItems ml) inc₁).2 d1 ++
      processOutgoingFiles out₁ d2).Perm
      ((processFlat (remoteItems ml) inc₂).1 ++
        processIncomingFiles (processFlat (remoteItems ml) inc₂).2 d1 ++
        processOutgoingFiles out₂ d2) := by
    refine List.Perm.append (List.Perm.append ?_ ?_) ?_
    · rw [ha]
    · exact hb.map _
    · exact hout.map _
  exact (sortLE_perm _ _).trans (hmid.trans (sortLE_perm _ _).symm)

theorem eq_of_perm_of_strict :
    ∀ {l₁ l₂ : List File}, l₁.Perm l₂ →
      l₁.Pairwise (fun a b => a.createdAt < b.createdAt) →
      l₂.Pairwise (fun a b => a.createdAt < b.createdAt) → l₁ = l₂ := by
  intro l₁
  induction l₁ with
  | nil => exact fun h _ _ => h.nil_eq
  | cons a t ih =>
      intro l₂ h h1 h2
      cases l₂ with
      | nil => cases h.symm.nil_eq
      | cons b t' =>
          have hab : a = b := by
            by_contra hne
            have ha2 : a ∈ b :: t' := h.mem_iff.mp (List.mem_cons_self a t)
            have hb1 : b ∈ a :: t := h.symm.mem_iff.mp (List.mem_cons_self b t')
            rcases List.mem_cons.mp ha2 with hEq | ha3
            · exact hne hEq
            rcases List.mem_cons.mp hb1 with hEq | hb3
            · exact hne hEq.symm
            have c1 : b.createdAt < a.createdAt := (List.pairwise_cons.mp h2).1 a ha3
            have c2 : a.createdAt < b.createdAt := (List.pairwise_cons.mp h1).1 b hb3
            omega
          subst hab
          have ht : t.Perm t' := h.cons_inv
          rw [ih ht (List.pairwise_cons.mp h1).2 (List.pairwise_cons.mp h2).2]

theorem strict_of_sorted_nodup {l : List File}
    (hs : l.Pairwise (fun a b => a.createdAt ≤ b.createdAt))
    (hn : (l.map File.createdAt).Nodup) :
    l.Pairwise (fun a b => a.createdAt < b.createdAt) := by
  have hne : l.Pairwise (fun a b => a.createdAt ≠ b.createdAt) := by
    rw [List.Nodup, List.pairwise_map] at hn
    exact hn
  exact (hs.and hne).imp (fun h => lt_of_le_of_ne h.1 h.2)

/-- Two iteration orders of the same two-file incoming map whose files share
a modification time. -/
def claim7Inc1 : FileMap :=
  [("b.mp4", { size := 1, modTime := 10 }), ("a.mp4", { size := 1, modTime := 10 })]

def claim7Inc2 : FileMap :=
  [("a.mp4", { size := 1, modTime := 10 }), ("b.mp4", { size := 1, modTime := 10 })]

/-- Claim C7 counterexample: the claim asserts identical ordering for
unchanged inputs even with tied createdAt values, but the incoming listing
is a Go map whose iteration order is unspecified; two runs seeing the same
map in different iteration orders produce the tied records in different
final orders, because the sort breaks no ties. -/
theorem claim7_counterexample :
    claim7Inc1.Perm claim7Inc2 ∧
    newInventory { id := "", media := [] } claim7Inc1 [] "/in" "/out" ≠
      newInventory { id := "", media := [] } claim7Inc2 [] "/in" "/out" := by
  exact ⟨by decide, by decide⟩

/-- Claim C7 as amended: rebuilding from unchanged listings (the same maps,
in any iteration order) yields an inventory with identical record contents
(a permutation); the ordering is also identical whenever no two records
share a createdAt value, but records tied on createdAt may appear in
different orders across runs. -/
theorem claim7_idempotence (ml : MediaList) (inc₁ inc₂ out₁ out₂ : FileMap)
    (d1 d2 : String) (hinc : inc₁.Perm inc₂) (hout : out₁.Perm out₂)
    (hN : (inc₁.map Prod.fst).Nodup) :
    (newInventory ml inc₁ out₁ d1 d2).Perm (newInventory ml inc₂ out₂ d1 d2) ∧
    (((newInventory ml inc₁ out₁ d1 d2).map File.createdAt).Nodup →
      newInventory ml inc₁ out₁ d1 d2 = newInventory ml inc₂ out₂ d1 d2) := by
  have hperm := newInventory_resp_perm ml inc₁ inc₂ out₁ out₂ d1 d2 hinc hout hN
  refine ⟨hperm, ?_⟩
  intro hnd
  have hnd₂ : ((newInventory ml inc₂ out₂ d1 d2).map File.createdAt).Nodup :=
    ((hperm.map File.createdAt).nodup_iff).mp hnd
  exact eq_of_perm_of_strict hperm
    (strict_of_sorted_nodup (inventory_sorted_by_createdAt ml inc₁ out₁ d1 d2) hnd)
    (strict_of_sorted_nodup (inventory_sorted_by_createdAt ml inc₂ out₂ d1 d2) hnd₂)

/-- Witness for the amended claim C7: two iteration orders of a two-file
incoming map with distinct modification times give equal inventories. -/
theorem claim7_idempotence_witness :
    newInventory { id := "", media := [] }
        [("b.mp4", { size := 1, modTime := 20 }),
         ("a.mp4", { size := 1, modTime := 10 })] [] "/in" "/out" =
      newInventory { id := "", media := [] }
        [("a.mp4", { size := 1, modTime := 10 }),
         ("b.mp4", { size := 1, modTime := 20 })] [] "/in" "/out" :=
  (claim7_idempotence { id := "", media := [] }
      [("b.mp4", { size := 1, modTime := 20 }),
       ("a.mp4", { size := 1, modTime := 10 })]
      [("a.mp4", { size := 1, modTime := 10 }),
       ("b.mp4", { size := 1, modTime := 20 })] [] [] "/in" "/out"
      (by decide) (by decide) (by decide)).2 (by decide)

end Herosync


